import Mathlib

/-!
Verification development for the transcript-based chorusing player
(the `TranscriptViewer` component and its segment-looping playback engine).

Numbers are JavaScript doubles in the source; they are modelled as `ℚ`
(exact real arithmetic), integer indices as `ℕ`/`ℤ`, and the 16-bit PCM
conversion of `DataView.setInt16` as truncation toward zero followed by a
two's-complement byte encoding.  Stateful component code is modelled as
explicit state passing over `PlayerState`, with engine callbacks
(`onended`, the loop timer) as events.
-/

namespace Chorusing

/-- A transcript word (source interface `Word`); the source fields `start`
and `end` are milliseconds and are called `startMs`/`endMs` here because
`end` is a reserved word. -/
structure Word where
  text : String
  startMs : ℚ
  endMs : ℚ
  deriving DecidableEq

/-- The active selection (source state `selection : {start, end, text}`);
`start`/`end` are milliseconds, named `startMs`/`endMs` here. -/
structure Selection where
  startMs : ℚ
  endMs : ℚ
  text : String
  deriving DecidableEq

/-- Source `msToSeconds`: convert AssemblyAI milliseconds to seconds. -/
def msToSeconds (ms : ℚ) : ℚ := ms / 1000

/-- Source `secondsToMs`. -/
def secondsToMs (seconds : ℚ) : ℚ := seconds * 1000

/-- Source `formatTime`: `Math.round(time * 10) / 10`, then
`rounded % 1 === 0 ? rounded.toFixed(0) : rounded.toFixed(1)` with `"s"`
appended.  `Math.round` (ties toward positive infinity) is Mathlib's
`round`; the string rendering is embedded for the non-negative inputs the
specification quantifies over (for `k ≥ 0`, `toFixed` prints `k / 10` as
integer part `k / 10` and decimal digit `k % 10`). -/
def formatTime (time : ℚ) : String :=
  let k : ℤ := round (time * 10)
  if k % 10 = 0 then toString (k / 10) ++ "s"
  else toString (k / 10) ++ "." ++ toString (k % 10) ++ "s"

/-- Modelled from the spec: "`formatTime(seconds) -> string` that rounds to
one decimal place and drops a trailing `.0`", appending `"s"`.  The rounded
value is `round (time * 10) / 10 : ℚ`; if it is an integer the integer is
printed, otherwise its integer part followed by its single decimal digit. -/
def formatTimeSpec (time : ℚ) : String :=
  let r : ℚ := (round (time * 10) : ℤ) / 10
  if r = (⌊r⌋ : ℚ) then toString ⌊r⌋ ++ "s"
  else toString ⌊r⌋ ++ "." ++ toString ⌊(r - (⌊r⌋ : ℚ)) * 10⌋ ++ "s"

/-- The word lookup inside source `highlightCurrentWord`:
`transcriptData.words.find((word) => timeInMs >= word.start && timeInMs <= word.end)`. -/
def wordAt (words : List Word) (timeMs : ℚ) : Option Word :=
  words.find? (fun w => decide (timeMs ≥ w.startMs) && decide (timeMs ≤ w.endMs))

/-- Source `adjustStartTime` (the non-null-selection path; on a null
selection the source returns the state unchanged, see `Event.adjStart`). -/
def adjustStartTime (delta : ℚ) (sel : Selection) : Selection :=
  let currentStartSeconds := msToSeconds sel.startMs
  let currentEndSeconds := msToSeconds sel.endMs
  let newStartTime := max 0 (min (currentStartSeconds + delta) (currentEndSeconds - 1/10))
  { sel with startMs := secondsToMs newStartTime }

/-- Source `adjustEndTime`; `duration` is the decoded audio duration in
seconds (source state `duration`). -/
def adjustEndTime (duration : ℚ) (delta : ℚ) (sel : Selection) : Selection :=
  let currentStartSeconds := msToSeconds sel.startMs
  let currentEndSeconds := msToSeconds sel.endMs
  let newEndTime := max (currentStartSeconds + 1/10) (min (currentEndSeconds + delta) duration)
  { sel with endMs := secondsToMs newEndTime }

/-- One fine-tune call: `adjustStartTime(delta)` or `adjustEndTime(delta)`. -/
inductive Adjustment where
  | adjStart (delta : ℚ)
  | adjEnd (delta : ℚ)
  deriving DecidableEq

/-- A finite sequence of fine-tune adjustment calls applied in order;
`totalDurationMs` is the audio duration in milliseconds (the source keeps
it in seconds as `duration`). -/
def applyAdjustments (totalDurationMs : ℚ) (ops : List Adjustment) (sel : Selection) : Selection :=
  ops.foldl (fun s op =>
    match op with
    | .adjStart delta => adjustStartTime delta s
    | .adjEnd delta => adjustEndTime (msToSeconds totalDurationMs) delta s) sel

/-- A decoded sample buffer (Web Audio `AudioBuffer`): channel count, frame
count, sample rate, and per-channel sample data (`data ch i` is
`getChannelData(ch)[i]`; the source only reads in-bounds indices of the
buffers it creates, so the data is modelled as a total function). -/
structure AudioBuffer where
  numberOfChannels : ℕ
  length : ℕ
  sampleRate : ℕ
  data : ℕ → ℕ → ℚ

/-- The clamp in `audioBufferToWav`: `Math.max(-1, Math.min(1, x))`. -/
def clamp (x : ℚ) : ℚ := max (-1) (min 1 x)

/-- One PCM sample of `audioBufferToWav`: clamp, then
`sample < 0 ? sample * 0x8000 : sample * 0x7FFF`, then `setInt16`'s
conversion to an integer (truncation toward zero; the scaled value lies in
`[-32768, 32767]`, so no 16-bit wrap occurs). -/
def pcm16 (x : ℚ) : ℤ :=
  let s := clamp x
  if s < 0 then ⌈s * 32768⌉ else ⌊s * 32767⌋

/-- `DataView.setUint16(_, x, true)`: two little-endian bytes of `x` mod 2^16. -/
def u16le (x : ℕ) : List ℕ := [x % 256, x / 256 % 256]

/-- `DataView.setUint32(_, x, true)`: four little-endian bytes of `x` mod 2^32. -/
def u32le (x : ℕ) : List ℕ :=
  [x % 256, x / 256 % 256, x / 65536 % 256, x / 16777216 % 256]

/-- `DataView.setInt16(_, x, true)`: the two's-complement 16-bit encoding,
little-endian. -/
def i16le (x : ℤ) : List ℕ := u16le ((x % 65536).toNat)

/-- The 44 header bytes written by `audioBufferToWav` before the sample
loop: RIFF chunk, `fmt ` sub-chunk, `data` sub-chunk header.  `len` is the
source's `length` variable (`buffer.length * numberOfChannels * 2 + 44`);
the final field is `length - pos - 4` with `pos = 40`. -/
def wavHeader (b : AudioBuffer) : List ℕ :=
  let len := b.length * b.numberOfChannels * 2 + 44
  u32le 0x46464952 ++ u32le (len - 8) ++ u32le 0x45564157 ++
  u32le 0x20746d66 ++ u32le 16 ++ u16le 1 ++ u16le b.numberOfChannels ++
  u32le b.sampleRate ++ u32le (b.sampleRate * 2 * b.numberOfChannels) ++
  u16le (b.numberOfChannels * 2) ++ u16le 16 ++
  u32le 0x61746164 ++ u32le (len - 44)

/-- The interleaved sample bytes written by `audioBufferToWav`'s
`while (pos < length)` loop: for each frame `off`, one 16-bit sample per
channel in channel order. -/
def wavPayload (b : AudioBuffer) : List ℕ :=
  (List.range b.length).flatMap (fun off =>
    (List.range b.numberOfChannels).flatMap (fun i => i16le (pcm16 (b.data i off))))

/-- Source `audioBufferToWav`: the complete WAV byte stream. -/
def audioBufferToWav (b : AudioBuffer) : List ℕ := wavHeader b ++ wavPayload b

/-- `handleDownload`'s `startSample = Math.floor((selection.start / 1000) * sampleRate)`. -/
def startSample (sel : Selection) (sampleRate : ℕ) : ℤ :=
  ⌊sel.startMs / 1000 * sampleRate⌋

/-- `handleDownload`'s `endSample = Math.ceil((selection.end / 1000) * sampleRate)`. -/
def endSample (sel : Selection) (sampleRate : ℕ) : ℤ :=
  ⌈sel.endMs / 1000 * sampleRate⌉

/-- `handleDownload`'s `lengthInSamples = endSample - startSample`. -/
def lengthInSamples (sel : Selection) (sampleRate : ℕ) : ℤ :=
  endSample sel sampleRate - startSample sel sampleRate

/-- The segment buffer that `handleDownload` builds: same channel count and
sample rate, `lengthInSamples` frames, and the copy loop
`targetData[i] = sourceData[startSample + i]` per channel. -/
def extractBuffer (b : AudioBuffer) (sel : Selection) : AudioBuffer where
  numberOfChannels := b.numberOfChannels
  length := (lengthInSamples sel b.sampleRate).toNat
  sampleRate := b.sampleRate
  data := fun channel i => b.data channel ((startSample sel b.sampleRate).toNat + i)

/-- Modelled from the spec: the error taxonomy's `ExportError` ("missing
buffer or selection at export time").  The source surfaces this failure as
the guard `if (!selection || !audioBufferRef.current) return` at the top of
`handleDownload`; no output is produced in that case. -/
inductive ExportError where
  | missingBufferOrSelection
  deriving DecidableEq

/-- Source `handleDownload` as a function of the state it reads
(`audioBufferRef.current` and `selection`): either the guard fails and no
bytes are produced (`ExportError`), or the complete WAV byte buffer of the
extracted segment is built and handed to the consumer as a whole blob. -/
def handleDownload (buffer : Option AudioBuffer) (selection : Option Selection) :
    Except ExportError (List ℕ) :=
  match selection, buffer with
  | some sel, some b => .ok (audioBufferToWav (extractBuffer b sel))
  | _, _ => .error .missingBufferOrSelection

/-- Little-endian unsigned 32-bit readback from a byte list (consumer view
of a WAV header field). -/
def readU32le (l : List ℕ) (pos : ℕ) : ℕ :=
  l.getD pos 0 + 256 * l.getD (pos + 1) 0 + 65536 * l.getD (pos + 2) 0 +
    16777216 * l.getD (pos + 3) 0

/-- Little-endian signed 16-bit readback from a byte list (consumer view of
one PCM sample). -/
def readI16le (l : List ℕ) (pos : ℕ) : ℤ :=
  let v : ℕ := l.getD pos 0 + 256 * l.getD (pos + 1) 0
  if v < 32768 then (v : ℤ) else (v : ℤ) - 65536

/-- Source constant `loopPauseDuration` (milliseconds). -/
def loopPauseDuration : ℚ := 200

/-- The playback-relevant component state: the mutable selection
(`selection`/`selectionRef`), the decoded duration in seconds, whether the
audio context and decoded buffer are available (`ready` stands for
`audioCtxRef.current && audioBufferRef.current && audioArrayBuffer`), the
identity of the current `AudioBufferSourceNode` (`sourceRef`, with `nextId`
generating fresh identities), the offset/duration refs of the current
one-shot, the `isPlaying`/`isPausing` flags, and the pending loop-restart
timer (`timeoutRef`) carrying its delay and the selection value the
`setTimeout` closure captured. -/
structure PlayerState where
  selection : Option Selection
  duration : ℚ
  ready : Bool
  sourceRef : Option ℕ
  nextId : ℕ
  selectionOffsetRef : ℚ
  sourceDurationRef : ℚ
  isPlaying : Bool
  isPausing : Bool
  timeout : Option (ℚ × Selection)
  deriving DecidableEq

/-- Source `stopCurrentSource`: clear the pending timeout, stop and release
the current source, reset the playing/pausing flags. -/
def stopCurrentSource (st : PlayerState) : PlayerState :=
  { st with timeout := none, sourceRef := none, isPlaying := false, isPausing := false }

/-- Source `playSelection(sel)`: stop whatever is current, then (with a
context and decoded buffer available) start a one-shot over
`[msToSeconds sel.start, msToSeconds sel.end)`, record its refs and a fresh
handle identity, and set `isPlaying`; on missing audio data
`handlePlayError` leaves the flags cleared. -/
def playSelection (st : PlayerState) (sel : Selection) : PlayerState :=
  let st1 := stopCurrentSource st
  if st1.ready then
    { st1 with
      sourceRef := some st1.nextId
      nextId := st1.nextId + 1
      selectionOffsetRef := msToSeconds sel.startMs
      sourceDurationRef := msToSeconds (sel.endMs - sel.startMs)
      isPlaying := true }
  else st1

/-- Source `handleEnded`: re-read the current selection from the ref,
compute where the just-finished one-shot ended
(`selectionOffsetRef + sourceDurationRef`), release the source, and then
either (a) the end boundary grew (`sourceEndedAt < currentSelectionEnd -
0.01`): start a new one-shot over the extension and stay playing, or
(b) loop: set `isPausing` and schedule a `loopPauseDuration` timer whose
closure captures `currentSelection`, or (c) no selection: stop. -/
def handleEnded (st : PlayerState) : PlayerState :=
  let currentSelection := st.selection
  let sourceEndedAt := st.selectionOffsetRef + st.sourceDurationRef
  let currentSelectionEnd :=
    match currentSelection with
    | some s => msToSeconds s.endMs
    | none => 0
  let st1 := { st with sourceRef := none }
  match currentSelection with
  | some s =>
    if sourceEndedAt < currentSelectionEnd - 1/100 then
      if st1.ready then
        { st1 with
          sourceRef := some st1.nextId
          nextId := st1.nextId + 1
          selectionOffsetRef := sourceEndedAt
          sourceDurationRef := currentSelectionEnd - sourceEndedAt
          isPlaying := true }
      else st1
    else
      { st1 with isPausing := true, timeout := some (loopPauseDuration, s) }
  | none => { st1 with isPlaying := false, isPausing := false }

/-- The `onended` callback installed on every created source:
`if (sourceRef.current === thisSource) handleEnded()` — a notification from
a handle other than the currently-recorded one is ignored. -/
def onended (st : PlayerState) (h : ℕ) : PlayerState :=
  if st.sourceRef = some h then handleEnded st else st

/-- The loop-restart timer firing (the `setTimeout` callback scheduled in
`handleEnded`): clear `isPausing` and, if the captured selection and the
audio context/buffer are available, `playSelection(currentSelection)` where
`currentSelection` is the value the closure captured when `handleEnded`
ran. -/
def fireLoopTimer (st : PlayerState) : PlayerState :=
  match st.timeout with
  | none => st
  | some (_, capturedSelection) =>
    let st1 := { st with timeout := none, isPausing := false }
    if st1.ready then playSelection st1 capturedSelection else st1

/-- Source `togglePlayPause`: clear any pending timeout; if playing or
pausing, stop; otherwise start a one-shot over the current selection
(requires a selection and audio data, else `handlePlayError`). -/
def togglePlayPause (st : PlayerState) : PlayerState :=
  let st0 := { st with timeout := none }
  if st0.isPlaying || st0.isPausing then stopCurrentSource st0
  else
    match st0.selection with
    | none => { st0 with isPlaying := false, isPausing := false }
    | some sel =>
      if st0.ready then
        { st0 with
          sourceRef := some st0.nextId
          nextId := st0.nextId + 1
          selectionOffsetRef := msToSeconds sel.startMs
          sourceDurationRef := msToSeconds (sel.endMs - sel.startMs)
          isPlaying := true }
      else { st0 with isPlaying := false, isPausing := false }

/-- The spec's Playback State tagged variant, read off the component flags:
`isPausing` is the inter-loop gap, otherwise `isPlaying` means playing. -/
inductive PlaybackState where
  | stopped
  | playing
  | pausedBetweenLoops
  deriving DecidableEq

/-- Classify a component state as the spec's `{Stopped, Playing,
PausedBetweenLoops}`. -/
def playbackState (st : PlayerState) : PlaybackState :=
  if st.isPausing then .pausedBetweenLoops
  else if st.isPlaying then .playing
  else .stopped

/-- External events driving the component: the play/pause button, an
engine end-of-range notification for handle `h`, the loop timer firing,
and the fine-tune buttons (which no-op on a null selection, as in the
source's early `return`). -/
inductive Event where
  | toggle
  | sourceEnded (h : ℕ)
  | timerFired
  | adjStart (delta : ℚ)
  | adjEnd (delta : ℚ)
  deriving DecidableEq

/-- One event step of the component. -/
def step (st : PlayerState) : Event → PlayerState
  | .toggle => togglePlayPause st
  | .sourceEnded h => onended st h
  | .timerFired => fireLoopTimer st
  | .adjStart delta =>
    match st.selection with
    | none => st
    | some s => { st with selection := some (adjustStartTime delta s) }
  | .adjEnd delta =>
    match st.selection with
    | none => st
    | some s => { st with selection := some (adjustEndTime st.duration delta s) }

/-- Run a finite event trace. -/
def run (st : PlayerState) (events : List Event) : PlayerState := events.foldl step st

/-! ## C9: frame effect of the fine-tune adjustments -/

/-- C9: for every non-null Selection and every delta, `adjustStartTime`
changes only the start field and `adjustEndTime` changes only the end
field: the text field and the untouched boundary are unchanged by either
operation. -/
theorem adjust_frame_effect (sel : Selection) (duration delta : ℚ) :
    (adjustStartTime delta sel).endMs = sel.endMs ∧
    (adjustStartTime delta sel).text = sel.text ∧
    (adjustEndTime duration delta sel).startMs = sel.startMs ∧
    (adjustEndTime duration delta sel).text = sel.text :=
  ⟨rfl, rfl, rfl, rfl⟩

/-! ## C1: handle identity guard on end-of-range notifications -/

/-- C1: at most one playback handle is recorded in `sourceRef` at any
instant, and an `onended` notification triggers `handleEnded` exactly when
the notifying handle's identity equals the currently-recorded one; a stale
handle's notification causes no state transition at all. -/
theorem onended_stale_handle_ignored :
    (∀ (st : PlayerState) (h₁ h₂ : ℕ),
      st.sourceRef = some h₁ → st.sourceRef = some h₂ → h₁ = h₂) ∧
    (∀ (st : PlayerState) (h : ℕ), st.sourceRef ≠ some h → onended st h = st) ∧
    (∀ (st : PlayerState) (h : ℕ), st.sourceRef = some h → onended st h = handleEnded st) := by
  refine ⟨fun st h₁ h₂ e₁ e₂ => ?_, fun st h hne => ?_, fun st h he => ?_⟩
  · simpa using e₁.symm.trans e₂
  · rw [onended, if_neg hne]
  · rw [onended, if_pos he]

/-- A state in which handle 1 is current while the superseded handle 0 is
still able to report completion. -/
def staleState : PlayerState :=
  { selection := none, duration := 0, ready := true, sourceRef := some 1, nextId := 2,
    selectionOffsetRef := 0, sourceDurationRef := 0, isPlaying := true, isPausing := false,
    timeout := none }

theorem onended_stale_handle_ignored_witness : onended staleState 0 = staleState :=
  onended_stale_handle_ignored.2.1 staleState 0 (by simp [staleState])

/-! ## C7: word lookup -/

/-- C7: `wordAt` returns the first word in sequence order whose span
contains the instant (`startMs ≤ t ≤ endMs`), `none` when no word contains
it; on words `[{0,500},{500,1000}]` lookup at 750 ms gives the second word
and lookup at 500 ms gives the first (boundary tie resolved to the first
match). -/
theorem wordAt_first_match :
    (∀ (ws : List Word) (t : ℚ) (w : Word), wordAt ws t = some w →
      (w.startMs ≤ t ∧ t ≤ w.endMs) ∧
      ∃ pre post, ws = pre ++ w :: post ∧
        ∀ v ∈ pre, ¬(v.startMs ≤ t ∧ t ≤ v.endMs)) ∧
    (∀ (ws : List Word) (t : ℚ),
      wordAt ws t = none ↔ ∀ w ∈ ws, ¬(w.startMs ≤ t ∧ t ≤ w.endMs)) ∧
    wordAt [⟨"a", 0, 500⟩, ⟨"b", 500, 1000⟩] 750 = some ⟨"b", 500, 1000⟩ ∧
    wordAt [⟨"a", 0, 500⟩, ⟨"b", 500, 1000⟩] 500 = some ⟨"a", 0, 500⟩ := by
  refine ⟨?_, ?_, ?_, ?_⟩
  · intro ws t
    induction ws with
    | nil => intro w h; simp [wordAt] at h
    | cons a as ih =>
      intro w h
      by_cases hp : (decide (t ≥ a.startMs) && decide (t ≤ a.endMs)) = true
      · rw [wordAt, @List.find?_cons_of_pos _ (fun w => decide (t ≥ w.startMs) && decide (t ≤ w.endMs)) a as hp] at h
        obtain rfl : a = w := by simpa using h
        simp only [Bool.and_eq_true, decide_eq_true_eq, ge_iff_le] at hp
        exact ⟨⟨hp.1, hp.2⟩, [], as, rfl, by simp⟩
      · rw [wordAt, @List.find?_cons_of_neg _ (fun w => decide (t ≥ w.startMs) && decide (t ≤ w.endMs)) a as hp] at h
        obtain ⟨hw, pre, post, rfl, hpre⟩ := ih w h
        refine ⟨hw, a :: pre, post, rfl, ?_⟩
        intro v hv
        rcases List.mem_cons.1 hv with rfl | hv
        · simp only [Bool.and_eq_true, decide_eq_true_eq, ge_iff_le, not_and] at hp ⊢
          intro hs ht; exact hp hs ht
        · exact hpre v hv
  · intro ws t
    rw [wordAt, List.find?_eq_none]
    constructor
    · intro h w hw
      have := h w hw
      simpa [Bool.and_eq_true, decide_eq_true_eq, ge_iff_le, not_and] using this
    · intro h w hw
      have := h w hw
      simpa [Bool.and_eq_true, decide_eq_true_eq, ge_iff_le, not_and] using this
  · rw [wordAt, List.find?_cons_of_neg, List.find?_cons_of_pos]
    · simp only [Bool.and_eq_true, decide_eq_true_eq]; norm_num
    · simp only [Bool.and_eq_true, decide_eq_true_eq, not_and]; norm_num
  · rw [wordAt, List.find?_cons_of_pos]
    simp only [Bool.and_eq_true, decide_eq_true_eq]; norm_num

theorem wordAt_first_match_witness :
    ((⟨"b", 500, 1000⟩ : Word).startMs ≤ 750 ∧ (750:ℚ) ≤ (⟨"b", 500, 1000⟩ : Word).endMs) ∧
    ∃ pre post, ([⟨"a", 0, 500⟩, ⟨"b", 500, 1000⟩] : List Word) = pre ++ ⟨"b", 500, 1000⟩ :: post ∧
      ∀ v ∈ pre, ¬(v.startMs ≤ 750 ∧ (750:ℚ) ≤ v.endMs) :=
  wordAt_first_match.1 [⟨"a", 0, 500⟩, ⟨"b", 500, 1000⟩] 750 ⟨"b", 500, 1000⟩
    wordAt_first_match.2.2.1

/-! ## C4: selection bounds under adjustment sequences -/

/-- `adjustStartTime` preserves `0 ≤ start`, `start + 100 ≤ end`,
`end ≤ totalDurationMs`. -/
lemma adjustStartTime_bounds (sel : Selection) (delta Dms : ℚ)
    (h0 : 0 ≤ sel.startMs) (h1 : sel.startMs + 100 ≤ sel.endMs) (h2 : sel.endMs ≤ Dms) :
    0 ≤ (adjustStartTime delta sel).startMs ∧
    (adjustStartTime delta sel).startMs + 100 ≤ (adjustStartTime delta sel).endMs ∧
    (adjustStartTime delta sel).endMs ≤ Dms := by
  have hub : max 0 (min (sel.startMs / 1000 + delta) (sel.endMs / 1000 - 1/10)) ≤
      sel.endMs / 1000 - 1/10 :=
    max_le (by linarith) (min_le_right _ _)
  have hlb : (0:ℚ) ≤ max 0 (min (sel.startMs / 1000 + delta) (sel.endMs / 1000 - 1/10)) :=
    le_max_left _ _
  simp only [adjustStartTime, msToSeconds, secondsToMs]
  refine ⟨by linarith, by linarith, h2⟩

/-- `adjustEndTime` (with the audio duration `msToSeconds Dms`) preserves
`0 ≤ start`, `start + 100 ≤ end`, `end ≤ totalDurationMs`. -/
lemma adjustEndTime_bounds (sel : Selection) (delta Dms : ℚ)
    (h0 : 0 ≤ sel.startMs) (h1 : sel.startMs + 100 ≤ sel.endMs) (h2 : sel.endMs ≤ Dms) :
    0 ≤ (adjustEndTime (msToSeconds Dms) delta sel).startMs ∧
    (adjustEndTime (msToSeconds Dms) delta sel).startMs + 100 ≤
      (adjustEndTime (msToSeconds Dms) delta sel).endMs ∧
    (adjustEndTime (msToSeconds Dms) delta sel).endMs ≤ Dms := by
  have hlb : sel.startMs / 1000 + 1/10 ≤
      max (sel.startMs / 1000 + 1/10) (min (sel.endMs / 1000 + delta) (Dms / 1000)) :=
    le_max_left _ _
  have hub : max (sel.startMs / 1000 + 1/10) (min (sel.endMs / 1000 + delta) (Dms / 1000)) ≤
      Dms / 1000 :=
    max_le (by linarith) (min_le_right _ _)
  simp only [adjustEndTime, msToSeconds, secondsToMs]
  refine ⟨h0, by linarith, by linarith⟩

/-- The strengthened invariant is inductive over any adjustment sequence. -/
lemma applyAdjustments_inv (Dms : ℚ) (ops : List Adjustment) :
    ∀ sel : Selection, 0 ≤ sel.startMs → sel.startMs + 100 ≤ sel.endMs → sel.endMs ≤ Dms →
      0 ≤ (applyAdjustments Dms ops sel).startMs ∧
      (applyAdjustments Dms ops sel).startMs + 100 ≤ (applyAdjustments Dms ops sel).endMs ∧
      (applyAdjustments Dms ops sel).endMs ≤ Dms := by
  induction ops with
  | nil => intro sel h0 h1 h2; exact ⟨h0, h1, h2⟩
  | cons op ops ih =>
    intro sel h0 h1 h2
    cases op with
    | adjStart delta =>
      obtain ⟨a, b, c⟩ := adjustStartTime_bounds sel delta Dms h0 h1 h2
      exact ih (adjustStartTime delta sel) a b c
    | adjEnd delta =>
      obtain ⟨a, b, c⟩ := adjustEndTime_bounds sel delta Dms h0 h1 h2
      exact ih (adjustEndTime (msToSeconds Dms) delta sel) a b c

/-- C4 as stated is false: the selection `{startMs := 950, endMs := 1000}`
with `totalDurationMs = 1000` satisfies `0 ≤ startMs < endMs ≤
totalDurationMs`, yet a single `adjustEndTime(0)` call produces `endMs =
1050 > totalDurationMs` (the clamp `max(start + 0.1, min(end + delta,
duration))` overrides the duration bound when `start + 0.1 > duration`). -/
theorem adjust_sequence_invariant_cex :
    ((0:ℚ) ≤ (950:ℚ) ∧ (950:ℚ) < 1000 ∧ (1000:ℚ) ≤ 1000) ∧
    (applyAdjustments 1000 [Adjustment.adjEnd 0] ⟨950, 1000, ""⟩).endMs = 1050 ∧
    ¬((applyAdjustments 1000 [Adjustment.adjEnd 0] ⟨950, 1000, ""⟩).endMs ≤ 1000) := by
  norm_num [applyAdjustments, adjustEndTime, msToSeconds, secondsToMs]

/-- C4 amended: when the initial selection additionally satisfies
`endMs - startMs ≥ 100 ms`, every finite `adjustStartTime`/`adjustEndTime`
sequence preserves `0 ≤ startMs < endMs ≤ totalDurationMs` and
`endMs - startMs ≥ 100 ms`. -/
theorem adjust_sequence_invariant (Dms : ℚ) (sel : Selection) (ops : List Adjustment)
    (h0 : 0 ≤ sel.startMs) (hgap : 100 ≤ sel.endMs - sel.startMs) (h2 : sel.endMs ≤ Dms) :
    0 ≤ (applyAdjustments Dms ops sel).startMs ∧
    (applyAdjustments Dms ops sel).startMs < (applyAdjustments Dms ops sel).endMs ∧
    (applyAdjustments Dms ops sel).endMs ≤ Dms ∧
    100 ≤ (applyAdjustments Dms ops sel).endMs - (applyAdjustments Dms ops sel).startMs := by
  obtain ⟨a, b, c⟩ := applyAdjustments_inv Dms ops sel h0 (by linarith) h2
  exact ⟨a, by linarith, c, by linarith⟩

theorem adjust_sequence_invariant_witness :
    0 ≤ (applyAdjustments 10000 [Adjustment.adjStart (1/2)] ⟨1000, 3000, ""⟩).startMs ∧
    (applyAdjustments 10000 [Adjustment.adjStart (1/2)] ⟨1000, 3000, ""⟩).startMs <
      (applyAdjustments 10000 [Adjustment.adjStart (1/2)] ⟨1000, 3000, ""⟩).endMs ∧
    (applyAdjustments 10000 [Adjustment.adjStart (1/2)] ⟨1000, 3000, ""⟩).endMs ≤ 10000 ∧
    100 ≤ (applyAdjustments 10000 [Adjustment.adjStart (1/2)] ⟨1000, 3000, ""⟩).endMs -
      (applyAdjustments 10000 [Adjustment.adjStart (1/2)] ⟨1000, 3000, ""⟩).startMs :=
  adjust_sequence_invariant 10000 ⟨1000, 3000, ""⟩ [Adjustment.adjStart (1/2)]
    (by norm_num) (by norm_num) (by norm_num)

/-! ## C2: end-of-range reconciliation in `handleEnded` -/

/-- C2: when an end-of-range event runs `handleEnded` while playing with a
current selection, the handler re-reads that selection; if the clip's end
point (`offset + duration`) is below the current selection end minus the
0.01 s tolerance it immediately starts a new one-shot covering
`[endedAt, currentEnd)` and the state remains Playing; otherwise the state
becomes PausedBetweenLoops and a `loopPauseDuration = 200` ms timer is
scheduled to fire the restart. -/
theorem handleEnded_reconciles_selection (st : PlayerState) (s : Selection)
    (hsel : st.selection = some s) (hready : st.ready = true)
    (hplay : st.isPlaying = true) (hpause : st.isPausing = false) :
    (st.selectionOffsetRef + st.sourceDurationRef < msToSeconds s.endMs - 1/100 →
      (handleEnded st).selectionOffsetRef = st.selectionOffsetRef + st.sourceDurationRef ∧
      (handleEnded st).sourceDurationRef =
        msToSeconds s.endMs - (st.selectionOffsetRef + st.sourceDurationRef) ∧
      (handleEnded st).sourceRef = some st.nextId ∧
      playbackState (handleEnded st) = PlaybackState.playing) ∧
    (¬(st.selectionOffsetRef + st.sourceDurationRef < msToSeconds s.endMs - 1/100) →
      playbackState (handleEnded st) = PlaybackState.pausedBetweenLoops ∧
      (handleEnded st).timeout = some (loopPauseDuration, s) ∧
      loopPauseDuration = 200 ∧
      (handleEnded st).sourceRef = none ∧
      (handleEnded st).isPausing = true) := by
  constructor
  · intro hlt
    simp only [handleEnded, hsel, hready]
    rw [if_pos hlt]
    simp [playbackState, hpause]
  · intro hge
    simp only [handleEnded, hsel, hready]
    rw [if_neg hge]
    simp [playbackState, loopPauseDuration]

/-- A state about to loop: the one-shot `[1.0s, 3.0s)` of selection
`{1000, 3000}` has just been scheduled as current. -/
def loopEndState : PlayerState :=
  { selection := some ⟨1000, 3000, ""⟩, duration := 10, ready := true, sourceRef := some 0,
    nextId := 1, selectionOffsetRef := 1, sourceDurationRef := 2, isPlaying := true,
    isPausing := false, timeout := none }

theorem handleEnded_reconciles_selection_witness :
    playbackState (handleEnded loopEndState) = PlaybackState.pausedBetweenLoops ∧
    (handleEnded loopEndState).timeout = some (loopPauseDuration, ⟨1000, 3000, ""⟩) ∧
    loopPauseDuration = 200 ∧
    (handleEnded loopEndState).sourceRef = none ∧
    (handleEnded loopEndState).isPausing = true :=
  (handleEnded_reconciles_selection loopEndState ⟨1000, 3000, ""⟩ rfl rfl rfl rfl).2
    (by norm_num [loopEndState, msToSeconds])

/-! ## C3: which Selection the loop-restart timer uses -/

/-- Initial state: selection `{1000, 3000}` over a 10 s decoded buffer,
nothing playing. -/
def initState : PlayerState :=
  { selection := some ⟨1000, 3000, ""⟩, duration := 10, ready := true, sourceRef := none,
    nextId := 0, selectionOffsetRef := 0, sourceDurationRef := 0, isPlaying := false,
    isPausing := false, timeout := none }

/-- Play; natural end of the `[1s, 3s)` clip; during the 200 ms pause the
user extends the end by 2 s (committing `{1000, 5000}`); the timer fires. -/
def staleRestartTrace : List Event :=
  [.toggle, .sourceEnded 0, .adjEnd 2, .timerFired]

/-- C3 as stated is false: after an end-boundary adjustment committed
during the 200 ms pause, the restarted one-shot still has duration 2 s (the
`[1s, 3s)` range of the selection captured when the previous clip ended),
not the 4 s the Selection current at timer fire (`{1000, 5000}`) would
give: the `setTimeout` closure in `handleEnded` replays its captured
`currentSelection` instead of re-reading the ref. -/
theorem restart_stale_selection_cex :
    (run initState staleRestartTrace).selection = some ⟨1000, 5000, ""⟩ ∧
    (run initState staleRestartTrace).selectionOffsetRef = 1 ∧
    (run initState staleRestartTrace).sourceDurationRef = 2 ∧
    msToSeconds ((5000:ℚ) - 1000) = 4 ∧
    (run initState staleRestartTrace).sourceDurationRef ≠ msToSeconds ((5000:ℚ) - 1000) := by
  norm_num [run, staleRestartTrace, initState, step, togglePlayPause, onended, handleEnded,
    fireLoopTimer, playSelection, stopCurrentSource, adjustEndTime, msToSeconds, secondsToMs,
    loopPauseDuration]

/-- C3 amended: when the inter-loop pause timer fires, playback restarts
using the Selection value captured at the moment the previous clip ended
(the value stored with the pending timer), not a fresh read of the current
Selection; a boundary adjustment committed during the 200 ms pause
therefore takes effect only at the next end-of-range reconciliation, not on
this restart. -/
theorem restart_uses_captured_selection (st : PlayerState) (d : ℚ) (s : Selection)
    (ht : st.timeout = some (d, s)) (hready : st.ready = true) :
    (fireLoopTimer st).sourceRef = some st.nextId ∧
    (fireLoopTimer st).selectionOffsetRef = msToSeconds s.startMs ∧
    (fireLoopTimer st).sourceDurationRef = msToSeconds (s.endMs - s.startMs) ∧
    (fireLoopTimer st).isPlaying = true ∧
    (fireLoopTimer st).isPausing = false ∧
    (fireLoopTimer st).timeout = none := by
  simp [fireLoopTimer, ht, playSelection, stopCurrentSource, hready]

/-- A paused-between-loops state whose timer captured `{1000, 3000}` while
the live Selection has since become `{1000, 5000}`. -/
def pausedState : PlayerState :=
  { selection := some ⟨1000, 5000, ""⟩, duration := 10, ready := true, sourceRef := none,
    nextId := 1, selectionOffsetRef := 1, sourceDurationRef := 2, isPlaying := true,
    isPausing := true, timeout := some (200, ⟨1000, 3000, ""⟩) }

theorem restart_uses_captured_selection_witness :
    (fireLoopTimer pausedState).sourceRef = some pausedState.nextId ∧
    (fireLoopTimer pausedState).selectionOffsetRef = msToSeconds (1000:ℚ) ∧
    (fireLoopTimer pausedState).sourceDurationRef = msToSeconds ((3000:ℚ) - 1000) ∧
    (fireLoopTimer pausedState).isPlaying = true ∧
    (fireLoopTimer pausedState).isPausing = false ∧
    (fireLoopTimer pausedState).timeout = none :=
  restart_uses_captured_selection pausedState 200 ⟨1000, 3000, ""⟩ rfl rfl

/-! ## C8: formatTime -/

/-- C8: for every non-negative number of seconds, `formatTime` renders the
value rounded to one decimal place with a trailing `.0` dropped and `"s"`
appended (it agrees with the spec-modelled renderer `formatTimeSpec`), and
the spec's examples hold: `3.0 → "3s"`, `3.14 → "3.1s"`, `0 → "0s"`. -/
theorem formatTime_spec_refinement :
    (∀ t : ℚ, 0 ≤ t → formatTime t = formatTimeSpec t) ∧
    formatTime 3 = "3s" ∧ formatTime (157/50) = "3.1s" ∧ formatTime 0 = "0s" := by
  have key : ∀ t : ℚ, formatTime t = formatTimeSpec t := by
    intro t
    simp only [formatTime, formatTimeSpec]
    set k : ℤ := round (t * 10) with hk
    have hfloor : ⌊(k:ℚ)/10⌋ = k / 10 := by
      have h := Rat.floor_intCast_div_natCast k 10
      simpa using h
    have hq : (k:ℚ)/10 - ((k/10:ℤ):ℚ) = ((k % 10 : ℤ):ℚ)/10 := by
      rw [Int.emod_def]; push_cast; ring
    by_cases hm : k % 10 = 0
    · have hr : (k:ℚ)/10 = (⌊(k:ℚ)/10⌋ : ℚ) := by
        rw [hfloor]
        have h0 : ((k % 10 : ℤ):ℚ) = 0 := by exact_mod_cast hm
        have := hq
        rw [h0] at this
        linarith
      rw [if_pos hm, if_pos hr, hfloor]
    · have hr : ¬((k:ℚ)/10 = (⌊(k:ℚ)/10⌋ : ℚ)) := by
        rw [hfloor]
        intro h
        have h0 : ((k % 10 : ℤ):ℚ)/10 = 0 := by rw [← hq, h]; ring
        have h1 : ((k % 10 : ℤ):ℚ) = 0 := by linarith
        exact hm (by exact_mod_cast h1)
      have hd : ⌊((k:ℚ)/10 - (⌊(k:ℚ)/10⌋ : ℚ)) * 10⌋ = k % 10 := by
        rw [hfloor, hq, div_mul_cancel₀]
        · exact Int.floor_intCast _
        · norm_num
      rw [if_neg hm, if_neg hr, hd, hfloor]
  refine ⟨fun t _ => key t, ?_, ?_, ?_⟩
  · have h30 : round ((3:ℚ) * 10) = 30 := by rw [round_eq]; norm_num
    simp only [formatTime, h30]
    norm_num
    decide
  · have h31 : round ((157:ℚ)/50 * 10) = 31 := by rw [round_eq]; norm_num
    simp only [formatTime, h31]
    norm_num
    decide
  · have h0 : round ((0:ℚ) * 10) = 0 := by rw [round_eq]; norm_num
    simp only [formatTime, h0]
    norm_num
    decide

theorem formatTime_spec_refinement_witness :
    formatTime (157/50) = formatTimeSpec (157/50) :=
  formatTime_spec_refinement.1 (157/50) (by norm_num)

/-! ## WAV byte-stream structure (shared lemmas for C5, C6, C10) -/

lemma getD_concat_right (pre l : List ℕ) (i : ℕ) :
    (pre ++ l).getD (pre.length + i) 0 = l.getD i 0 := by
  rw [List.getD_append_right _ _ _ _ (Nat.le_add_right _ _), Nat.add_sub_cancel_left]

/-- Length of a `flatMap` whose chunks all have length `k`. -/
lemma flatMap_const_length {α β : Type} (l : List α) (f : α → List β) (k : ℕ)
    (h : ∀ a, (f a).length = k) : (l.flatMap f).length = l.length * k := by
  induction l with
  | nil => simp
  | cons a as ih =>
    rw [List.flatMap_cons, List.length_append, h, ih, List.length_cons]
    ring

lemma wavHeader_length (b : AudioBuffer) : (wavHeader b).length = 44 := rfl

lemma i16le_length (x : ℤ) : (i16le x).length = 2 := rfl

lemma wavPayload_length (b : AudioBuffer) :
    (wavPayload b).length = b.length * (b.numberOfChannels * 2) := by
  rw [wavPayload,
    flatMap_const_length _ _ (b.numberOfChannels * 2)
      (fun off => by
        rw [flatMap_const_length _ _ 2 (fun i => i16le_length _), List.length_range]),
    List.length_range]

lemma audioBufferToWav_length (b : AudioBuffer) :
    (audioBufferToWav b).length = 44 + 2 * b.numberOfChannels * b.length := by
  rw [audioBufferToWav, List.length_append, wavHeader_length, wavPayload_length]
  ring

/-- Reading back four little-endian bytes of `x` recovers `x` mod 2^32. -/
lemma readU32le_bytes (x : ℕ) (l : List ℕ) (pos : ℕ)
    (h0 : l.getD pos 0 = x % 256) (h1 : l.getD (pos + 1) 0 = x / 256 % 256)
    (h2 : l.getD (pos + 2) 0 = x / 65536 % 256) (h3 : l.getD (pos + 3) 0 = x / 16777216 % 256) :
    readU32le l pos = x % 4294967296 := by
  rw [readU32le, h0, h1, h2, h3]
  omega

/-! ## C10: WAV size fields -/

/-- C10: the WAV byte stream has total length exactly `44 + 2·c·n` bytes,
its RIFF chunk-size field (bytes 4..7, little-endian) equals the total
length minus 8, and its `data` sub-chunk size field (bytes 40..43) equals
the total length minus 44 (the size-field hypothesis keeps the 32-bit
fields from wrapping). -/
theorem audioBufferToWav_sizes (b : AudioBuffer)
    (h32 : 2 * b.numberOfChannels * b.length + 36 < 4294967296) :
    (audioBufferToWav b).length = 44 + 2 * b.numberOfChannels * b.length ∧
    readU32le (audioBufferToWav b) 4 = (audioBufferToWav b).length - 8 ∧
    readU32le (audioBufferToWav b) 40 = (audioBufferToWav b).length - 44 := by
  have hlen := audioBufferToWav_length b
  have hcomm : b.length * b.numberOfChannels * 2 = 2 * b.numberOfChannels * b.length := by ring
  refine ⟨hlen, ?_, ?_⟩
  · have h4 : readU32le (audioBufferToWav b) 4 =
        (b.length * b.numberOfChannels * 2 + 44 - 8) % 4294967296 := by
      apply readU32le_bytes (b.length * b.numberOfChannels * 2 + 44 - 8) <;>
        simp [audioBufferToWav, wavHeader, u32le, u16le]
    rw [h4, hlen, hcomm]
    generalize 2 * b.numberOfChannels * b.length = m at h32 ⊢
    omega
  · have h40 : readU32le (audioBufferToWav b) 40 =
        (b.length * b.numberOfChannels * 2 + 44 - 44) % 4294967296 := by
      apply readU32le_bytes (b.length * b.numberOfChannels * 2 + 44 - 44) <;>
        simp [audioBufferToWav, wavHeader, u32le, u16le]
    rw [h40, hlen, hcomm]
    generalize 2 * b.numberOfChannels * b.length = m at h32 ⊢
    omega

/-- A concrete mono buffer: 2 frames of silence at 8 kHz. -/
def wavWitnessBuffer : AudioBuffer :=
  { numberOfChannels := 1, length := 2, sampleRate := 8000, data := fun _ _ => 0 }

theorem audioBufferToWav_sizes_witness :
    (audioBufferToWav wavWitnessBuffer).length = 44 + 2 * 1 * 2 ∧
    readU32le (audioBufferToWav wavWitnessBuffer) 4 = (audioBufferToWav wavWitnessBuffer).length - 8 ∧
    readU32le (audioBufferToWav wavWitnessBuffer) 40 = (audioBufferToWav wavWitnessBuffer).length - 44 :=
  audioBufferToWav_sizes wavWitnessBuffer (by norm_num [wavWitnessBuffer])

/-! ## C6: export error handling and whole-buffer output -/

/-- C6: export fails with the `ExportError` exactly when no decoded buffer
or no selection is present at export time; otherwise the consumer observes
only the complete output byte buffer — a full WAV file whose length is the
44-byte header plus all `2·c·lengthInSamples` payload bytes and which
begins with the RIFF magic. -/
theorem handleDownload_error_or_whole_file :
    (∀ (ob : Option AudioBuffer) (os : Option Selection),
      handleDownload ob os = .error ExportError.missingBufferOrSelection ↔
        ob = none ∨ os = none) ∧
    (∀ (b : AudioBuffer) (sel : Selection) (w : List ℕ),
      handleDownload (some b) (some sel) = .ok w →
      w.length = 44 + 2 * b.numberOfChannels * (lengthInSamples sel b.sampleRate).toNat ∧
      w.take 4 = [82, 73, 70, 70]) := by
  constructor
  · intro ob os
    rcases ob with _ | b <;> rcases os with _ | s <;> simp [handleDownload]
  · intro b sel w hok
    have hw : w = audioBufferToWav (extractBuffer b sel) := by
      simpa [handleDownload] using hok.symm
    subst hw
    refine ⟨audioBufferToWav_length (extractBuffer b sel), ?_⟩
    simp [audioBufferToWav, wavHeader, u32le, u16le, List.take]

theorem handleDownload_error_or_whole_file_witness :
    handleDownload (none : Option AudioBuffer) (none : Option Selection) =
      .error ExportError.missingBufferOrSelection :=
  (handleDownload_error_or_whole_file.1 none none).mpr (Or.inl rfl)

/-! ## C5: exported samples are copied and 16-bit quantized -/

/-- The interleaved PCM samples of a buffer, frame-major (the stream of
values the `while` loop feeds to `setInt16`). -/
def pcmFrames (b : AudioBuffer) : List ℤ :=
  (List.range b.length).flatMap (fun off =>
    (List.range b.numberOfChannels).map (fun i => pcm16 (b.data i off)))

lemma wavPayload_eq_flatMap (b : AudioBuffer) :
    wavPayload b = (pcmFrames b).flatMap i16le := by
  rw [wavPayload, pcmFrames, List.flatMap_assoc]
  simp only [List.flatMap_map]

lemma pcmFrames_length (b : AudioBuffer) :
    (pcmFrames b).length = b.length * b.numberOfChannels := by
  rw [pcmFrames,
    flatMap_const_length _ _ b.numberOfChannels
      (fun off => by rw [List.length_map, List.length_range]),
    List.length_range]

lemma getD_map_range {β : Type} (g : ℕ → β) (d : β) (c ch : ℕ) (h : ch < c) :
    ((List.range c).map g).getD ch d = g ch := by
  rw [List.getD_eq_getElem?_getD, List.getElem?_map, List.getElem?_range h]
  rfl

lemma pcmFrames_getD (b : AudioBuffer) (ch k : ℕ)
    (hch : ch < b.numberOfChannels) (hk : k < b.length) :
    (pcmFrames b).getD (k * b.numberOfChannels + ch) 0 = pcm16 (b.data ch k) := by
  rw [pcmFrames]
  have key : ∀ (n k : ℕ), k < n →
      (((List.range n).flatMap (fun off =>
        (List.range b.numberOfChannels).map (fun i => pcm16 (b.data i off)))).getD
        (k * b.numberOfChannels + ch) 0) = pcm16 (b.data ch k) := by
    intro n
    induction n with
    | zero => intro k hk; omega
    | succ n ih =>
      intro k hk
      rw [List.range_succ, List.flatMap_append]
      have hfirst : (((List.range n).flatMap (fun off =>
          (List.range b.numberOfChannels).map (fun i => pcm16 (b.data i off)))).length) =
          n * b.numberOfChannels :=
        flatMap_const_length _ _ b.numberOfChannels
          (fun off => by rw [List.length_map, List.length_range]) |>.trans
          (by rw [List.length_range])
      by_cases hkn : k < n
      · rw [List.getD_append]
        · exact ih k hkn
        · rw [hfirst]
          calc k * b.numberOfChannels + ch < k * b.numberOfChannels + b.numberOfChannels :=
                Nat.add_lt_add_left hch _
            _ = (k + 1) * b.numberOfChannels := by ring
            _ ≤ n * b.numberOfChannels := Nat.mul_le_mul_right _ hkn
      · have hkeq : k = n := by omega
        subst hkeq
        rw [List.getD_append_right _ _ _ _ (by rw [hfirst]; exact Nat.le_add_right _ _)]
        rw [hfirst, Nat.add_sub_cancel_left]
        simp only [List.flatMap_cons, List.flatMap_nil, List.append_nil]
        exact getD_map_range _ _ _ _ hch
  exact key b.length k hk

/-- Byte pair of sample `m` inside a flat 16-bit little-endian encoding. -/
lemma getD_flatMap_pair (ss : List ℤ) :
    ∀ m : ℕ, m < ss.length →
      ((ss.flatMap i16le).getD (2 * m) 0 = ((ss.getD m 0) % 65536).toNat % 256 ∧
       (ss.flatMap i16le).getD (2 * m + 1) 0 = ((ss.getD m 0) % 65536).toNat / 256 % 256) := by
  induction ss with
  | nil => intro m hm; simp at hm
  | cons z ss ih =>
    intro m hm
    rw [List.flatMap_cons]
    cases m with
    | zero => simp [i16le, u16le]
    | succ m =>
      have h2 : 2 * (m + 1) = (i16le z).length + 2 * m := by rw [i16le_length]; ring
      have h3 : 2 * (m + 1) + 1 = (i16le z).length + (2 * m + 1) := by rw [i16le_length]; ring
      rw [h3, h2, getD_concat_right (i16le z) _ (2 * m),
        getD_concat_right (i16le z) _ (2 * m + 1)]
      have hm' : m < ss.length := by simpa using hm
      simpa using ih m hm'

/-- `pcm16` always lies in the signed 16-bit range. -/
lemma pcm16_bounds (x : ℚ) : -32768 ≤ pcm16 x ∧ pcm16 x < 32768 := by
  have hlb : (-1 : ℚ) ≤ clamp x := le_max_left _ _
  have hub : clamp x ≤ 1 := max_le (by norm_num) (min_le_left _ _)
  rw [pcm16]
  by_cases hs : clamp x < 0
  · rw [if_pos hs]
    constructor
    · have hle : ((-32768 : ℤ) : ℚ) ≤ clamp x * 32768 := by push_cast; nlinarith
      have h := Int.ceil_le_ceil hle
      rw [Int.ceil_intCast] at h
      exact h
    · have h0 : clamp x * 32768 ≤ 0 := by nlinarith
      have : ⌈clamp x * 32768⌉ ≤ 0 := Int.ceil_le.mpr (by simpa using h0)
      omega
  · rw [if_neg hs]
    push_neg at hs
    constructor
    · have h0 : (0 : ℤ) ≤ ⌊clamp x * 32767⌋ := Int.floor_nonneg.mpr (by nlinarith)
      omega
    · have hle : clamp x * 32767 ≤ ((32767 : ℤ) : ℚ) := by push_cast; nlinarith
      have h := Int.floor_le_floor hle
      rw [Int.floor_intCast] at h
      omega

/-- Decoding the two's-complement byte pair of an in-range sample recovers
it. -/
lemma readI16le_flatMap (ss : List ℤ) (m : ℕ) (hm : m < ss.length)
    (h1 : -32768 ≤ ss.getD m 0) (h2 : ss.getD m 0 < 32768) :
    readI16le (ss.flatMap i16le) (2 * m) = ss.getD m 0 := by
  obtain ⟨e0, e1⟩ := getD_flatMap_pair ss m hm
  rw [readI16le, e0, e1]
  have hnn : 0 ≤ ss.getD m 0 % 65536 := Int.emod_nonneg _ (by norm_num)
  have hlt : ss.getD m 0 % 65536 < 65536 := Int.emod_lt_of_pos _ (by norm_num)
  omega

lemma readI16le_append (pre l : List ℕ) (pos : ℕ) :
    readI16le (pre ++ l) (pre.length + pos) = readI16le l pos := by
  have e0 := getD_concat_right pre l pos
  have e1 : (pre ++ l).getD (pre.length + pos + 1) 0 = l.getD (pos + 1) 0 := by
    rw [Nat.add_assoc]
    exact getD_concat_right pre l (pos + 1)
  rw [readI16le, readI16le, e0, e1]

/-- Sample `(ch, k)` of any buffer sits at byte offset
`44 + 2·(k·c + ch)` of the WAV stream and decodes to `pcm16` of the source
sample. -/
lemma wav_sample_bytes (b : AudioBuffer) (ch k : ℕ)
    (hch : ch < b.numberOfChannels) (hk : k < b.length) :
    readI16le (audioBufferToWav b) (44 + 2 * (k * b.numberOfChannels + ch)) =
      pcm16 (b.data ch k) := by
  have hm : k * b.numberOfChannels + ch < (pcmFrames b).length := by
    rw [pcmFrames_length]
    calc k * b.numberOfChannels + ch < k * b.numberOfChannels + b.numberOfChannels :=
          Nat.add_lt_add_left hch _
      _ = (k + 1) * b.numberOfChannels := by ring
      _ ≤ b.length * b.numberOfChannels := Nat.mul_le_mul_right _ hk
  have hval := pcmFrames_getD b ch k hch hk
  have hbounds := pcm16_bounds (b.data ch k)
  rw [audioBufferToWav, show (44 : ℕ) = (wavHeader b).length from (wavHeader_length b).symm,
    readI16le_append, wavPayload_eq_flatMap,
    readI16le_flatMap _ _ hm (by rw [hval]; exact hbounds.1) (by rw [hval]; exact hbounds.2),
    hval]

/-- C5: for every buffer and in-range selection the exported segment has,
per channel, exactly `ceil(endMs/1000·rate) - floor(startMs/1000·rate)`
samples, each copied without resampling or channel mixing from the
half-open source range `[floor, ceil)`; and each 16-bit integer in the
exported WAV equals `pcm16` of the corresponding source sample — the float
clamped to `[-1, 1]`, scaled by 32768 when negative and by 32767 when
non-negative (then truncated to an integer by `setInt16`). -/
theorem exportSegment_samples (b : AudioBuffer) (sel : Selection)
    (h0 : 0 ≤ sel.startMs) (h01 : sel.startMs ≤ sel.endMs) :
    (((extractBuffer b sel).length : ℤ) =
      endSample sel b.sampleRate - startSample sel b.sampleRate) ∧
    (∀ ch i, (extractBuffer b sel).data ch i =
      b.data ch ((startSample sel b.sampleRate).toNat + i)) ∧
    (∀ ch k, ch < b.numberOfChannels → k < (extractBuffer b sel).length →
      readI16le (audioBufferToWav (extractBuffer b sel)) (44 + 2 * (k * b.numberOfChannels + ch)) =
        pcm16 (b.data ch ((startSample sel b.sampleRate).toNat + k))) := by
  refine ⟨?_, fun ch i => rfl, ?_⟩
  · have hmono : sel.startMs / 1000 * (b.sampleRate : ℚ) ≤ sel.endMs / 1000 * (b.sampleRate : ℚ) := by
      apply mul_le_mul_of_nonneg_right _ (by positivity)
      linarith
    have hle : startSample sel b.sampleRate ≤ endSample sel b.sampleRate := by
      rw [startSample, endSample]
      exact le_trans (Int.floor_le_floor hmono) (Int.floor_le_ceil _)
    have hnn : 0 ≤ lengthInSamples sel b.sampleRate := by
      rw [lengthInSamples]; omega
    show ((lengthInSamples sel b.sampleRate).toNat : ℤ) = _
    rw [Int.toNat_of_nonneg hnn, lengthInSamples]
  · intro ch k hch hk
    exact wav_sample_bytes (extractBuffer b sel) ch k hch hk

/-- A source buffer with a two-second ramp at 1 kHz and the selection
`[0 ms, 2 ms)`. -/
def segmentWitnessBuffer : AudioBuffer :=
  { numberOfChannels := 1, length := 4, sampleRate := 1000, data := fun _ _ => 0 }

theorem exportSegment_samples_witness :
    (((extractBuffer segmentWitnessBuffer ⟨0, 2, ""⟩).length : ℤ) =
      endSample ⟨0, 2, ""⟩ 1000 - startSample ⟨0, 2, ""⟩ 1000) ∧
    (∀ ch i, (extractBuffer segmentWitnessBuffer ⟨0, 2, ""⟩).data ch i =
      segmentWitnessBuffer.data ch ((startSample ⟨0, 2, ""⟩ 1000).toNat + i)) ∧
    (∀ ch k, ch < segmentWitnessBuffer.numberOfChannels →
      k < (extractBuffer segmentWitnessBuffer ⟨0, 2, ""⟩).length →
      readI16le (audioBufferToWav (extractBuffer segmentWitnessBuffer ⟨0, 2, ""⟩))
          (44 + 2 * (k * segmentWitnessBuffer.numberOfChannels + ch)) =
        pcm16 (segmentWitnessBuffer.data ch ((startSample ⟨0, 2, ""⟩ 1000).toNat + k))) :=
  exportSegment_samples segmentWitnessBuffer ⟨0, 2, ""⟩ (by norm_num) (by norm_num)

end Chorusing
